import Mathlib

/-!
Verification development for the Defence-Mission-Track backend.

Shallow embedding of the code under src/backend/src (controllers,
WebSocket service, DatabaseService query helpers, EncryptionService)
together with theorems settling the frozen claims about it.

Modelling conventions:
* Node's Buffer hex semantics (forgiving decoding that stops at the
  first invalid pair) are embedded exactly.
* Strings are converted to byte lists through an injective, executable
  character encoding (three bytes per unicode scalar value) standing in
  for Node's utf8 codec; every claim is insensitive to the concrete
  choice of byte layout.
* AES-256-GCM as reached through Node's deprecated createCipher /
  createDecipher is modelled symbolically: createCipher derives key and
  IV from the password alone (the envelope's random iv field is never
  fed to the cipher), so the ciphertext and auth tag are opaque values
  determined injectively by (password, AAD, plaintext), and decryption
  succeeds exactly when password, AAD and tag are consistent with the
  ciphertext.  This is the standard ideal-cipher abstraction.
* Randomness (crypto.randomBytes) is passed as an explicit input.
* The Supabase RecordStore is embedded as an explicit state value;
  write failures that the code checks in-band are explicit boolean
  outcome parameters.
-/

namespace DMT

/-! ## Node Buffer hex semantics -/

/-- Is `c` an ASCII hex digit (0-9, a-f, A-F)?  Conditions are phrased on
code points so that `omega` can reason about them. -/
def isHexDigit (c : Char) : Bool :=
  decide ((48 ≤ c.toNat ∧ c.toNat ≤ 57) ∨ (97 ≤ c.toNat ∧ c.toNat ≤ 102) ∨
    (65 ≤ c.toNat ∧ c.toNat ≤ 70))

/-- Numeric value of a hex digit (0 for non-digits; only reached behind an
`isHexDigit` guard). -/
def hexDigitVal (c : Char) : Nat :=
  if 48 ≤ c.toNat ∧ c.toNat ≤ 57 then c.toNat - 48
  else if 97 ≤ c.toNat ∧ c.toNat ≤ 102 then c.toNat - 87
  else if 65 ≤ c.toNat ∧ c.toNat ≤ 70 then c.toNat - 55
  else 0

/-- Node `Buffer.from(s, 'hex')`: decodes two-character pairs left to right
and silently stops at the first invalid pair (a trailing lone character is
dropped).  It never throws on malformed hex. -/
def hexDecodeList : List Char → List Nat
  | c1 :: c2 :: rest =>
    if isHexDigit c1 && isHexDigit c2 then
      (16 * hexDigitVal c1 + hexDigitVal c2) :: hexDecodeList rest
    else []
  | _ => []

/-- Node `Buffer.from(s, 'hex')` on a Lean string. -/
def hexDecode (s : String) : List Nat := hexDecodeList s.data

/-- Lower-case hex digit character for `d < 16`. -/
def hexDigitChar (d : Nat) : Char :=
  if d < 10 then Char.ofNat (48 + d) else Char.ofNat (87 + d)

/-- Two lower-case hex characters for one byte. -/
def hexEncodeByte (b : Nat) : List Char := [hexDigitChar (b / 16), hexDigitChar (b % 16)]

/-- Node `buffer.toString('hex')`. -/
def hexEncode (l : List Nat) : String := String.mk ((l.map hexEncodeByte).flatten)

theorem hexDigitVal_lt (c : Char) : hexDigitVal c < 16 := by
  unfold hexDigitVal
  split
  · omega
  · split
    · omega
    · split <;> omega

theorem hexDigit_char_spec : ∀ d : Nat, d < 16 →
    isHexDigit (hexDigitChar d) = true ∧ hexDigitVal (hexDigitChar d) = d := by decide

theorem hexDecodeList_lt : ∀ (l : List Char), ∀ b ∈ hexDecodeList l, b < 256
  | [] => by simp [hexDecodeList]
  | [c] => by simp [hexDecodeList]
  | c1 :: c2 :: rest => by
    intro b hb
    unfold hexDecodeList at hb
    by_cases h : isHexDigit c1 && isHexDigit c2
    · rw [if_pos h] at hb
      rcases List.mem_cons.mp hb with h1 | h2
      · have := hexDigitVal_lt c1
        have := hexDigitVal_lt c2
        omega
      · exact hexDecodeList_lt rest b h2
    · rw [if_neg h] at hb
      simp at hb

theorem hexDecode_lt (s : String) : ∀ b ∈ hexDecode s, b < 256 :=
  hexDecodeList_lt s.data

theorem hexDecodeList_encode (l : List Nat) (h : ∀ b ∈ l, b < 256) :
    hexDecodeList ((l.map hexEncodeByte).flatten) = l := by
  induction l with
  | nil => rfl
  | cons b t ih =>
    have hb : b < 256 := h b (List.mem_cons_self b t)
    have hd1 := hexDigit_char_spec (b / 16) (by omega)
    have hd2 := hexDigit_char_spec (b % 16) (by omega)
    have ht : ∀ x ∈ t, x < 256 := fun x hx => h x (List.mem_cons_of_mem b hx)
    simp only [List.map_cons, List.flatten, hexEncodeByte]
    show hexDecodeList
      (hexDigitChar (b / 16) :: hexDigitChar (b % 16) :: (t.map hexEncodeByte).flatten) = b :: t
    unfold hexDecodeList
    rw [if_pos (by rw [hd1.1, hd2.1]; rfl)]
    rw [hd1.2, hd2.2, ih ht]
    congr 1
    omega

theorem hexDecode_hexEncode (l : List Nat) (h : ∀ b ∈ l, b < 256) :
    hexDecode (hexEncode l) = l :=
  hexDecodeList_encode l h

theorem hexEncode_injOn (l1 l2 : List Nat) (h1 : ∀ b ∈ l1, b < 256)
    (h2 : ∀ b ∈ l2, b < 256) (he : hexEncode l1 = hexEncode l2) : l1 = l2 := by
  have := hexDecode_hexEncode l1 h1
  have := hexDecode_hexEncode l2 h2
  rw [← hexDecode_hexEncode l1 h1, ← hexDecode_hexEncode l2 h2, he]

/-! ## String to byte-list codec (stands in for Node's utf8 codec) -/

/-- Injective byte encoding of one character: three bytes, big endian, of
its unicode scalar value (which is below 0x110000 < 2^24). -/
def charBytes (c : Char) : List Nat :=
  [c.toNat / 65536, c.toNat / 256 % 256, c.toNat % 256]

/-- Byte list of a string (models the utf8 encoding performed by
`cipher.update(plaintext, 'utf8', ...)` and `Buffer.from(s, 'utf8')`). -/
def strBytes (s : String) : List Nat := (s.data.map charBytes).flatten

/-- Inverse of `strBytes` on its image: decode three-byte chunks. -/
def bytesChars : List Nat → List Char
  | b0 :: b1 :: b2 :: rest => Char.ofNat (b0 * 65536 + b1 * 256 + b2) :: bytesChars rest
  | _ => []

/-- String decoded from a byte list (models `decipher.update(..., 'utf8')`). -/
def bytesStr (l : List Nat) : String := String.mk (bytesChars l)

theorem charOfNat_toNat (c : Char) : Char.ofNat c.toNat = c := by
  unfold Char.ofNat
  have h : Nat.isValidChar c.toNat := c.valid
  rw [dif_pos h]
  unfold Char.ofNatAux
  apply Char.eq_of_val_eq
  apply UInt32.eq_of_toBitVec_eq
  apply BitVec.eq_of_toNat_eq
  rfl

theorem char_toNat_lt (c : Char) : c.toNat < 1114112 := by
  have h : Nat.isValidChar c.toNat := c.valid
  rcases h with h | h <;> omega

theorem charBytes_lt (c : Char) : ∀ b ∈ charBytes c, b < 256 := by
  have := char_toNat_lt c
  intro b hb
  simp only [charBytes, List.mem_cons, List.not_mem_nil, or_false] at hb
  rcases hb with h | h | h <;> omega

theorem strBytes_lt (s : String) : ∀ b ∈ strBytes s, b < 256 := by
  intro b hb
  simp only [strBytes, List.mem_flatten, List.mem_map] at hb
  obtain ⟨l, ⟨c, _, rfl⟩, hbl⟩ := hb
  exact charBytes_lt c b hbl

theorem bytesChars_strBytes_list (l : List Char) :
    bytesChars ((l.map charBytes).flatten) = l := by
  induction l with
  | nil => rfl
  | cons c t ih =>
    simp only [List.map_cons, List.flatten, charBytes]
    show bytesChars
      (c.toNat / 65536 :: c.toNat / 256 % 256 :: c.toNat % 256 :: (t.map charBytes).flatten)
      = c :: t
    unfold bytesChars
    rw [ih]
    congr 1
    have heq : c.toNat / 65536 * 65536 + c.toNat / 256 % 256 * 256 + c.toNat % 256
        = c.toNat := by omega
    rw [heq, charOfNat_toNat]

theorem bytesStr_strBytes (s : String) : bytesStr (strBytes s) = s := by
  show String.mk (bytesChars ((s.data.map charBytes).flatten)) = s
  rw [bytesChars_strBytes_list]

theorem charBytesJoin_length (l : List Char) :
    ((l.map charBytes).flatten).length = 3 * l.length := by
  induction l with
  | nil => rfl
  | cons c t ih =>
    show (charBytes c ++ (t.map charBytes).flatten).length = 3 * (c :: t).length
    rw [List.length_append, ih]
    simp [charBytes]
    omega

theorem strBytes_length (s : String) : (strBytes s).length = 3 * s.data.length :=
  charBytesJoin_length s.data

/-! ## Symbolic AES-256-GCM under Node createCipher / createDecipher

`crypto.createCipher(alg, password)` derives key and IV from the password
alone via EVP_BytesToKey; the ciphertext and authentication tag are opaque
byte strings determined by (password, AAD, plaintext), and
`decipher.final()` succeeds exactly when the password, the AAD and the
supplied tag are consistent with the ciphertext.  We realise this ideal
cipher with an executable injective byte encoding plus its partial inverse. -/

/-- Self-delimiting byte encoding of a byte list (every byte prefixed with
a 1 marker, so a 0 byte can act as terminator in `gcmCiphertext`). -/
def escList (l : List Nat) : List Nat := (l.map (fun b => [1, b])).flatten

/-- Partial inverse of `escList`-then-terminator: reads marked bytes until
the 0 terminator, returning the decoded list and the remainder. -/
def unescList : List Nat → Option (List Nat × List Nat)
  | 0 :: rest => some ([], rest)
  | 1 :: b :: rest =>
    match unescList rest with
    | some (a, r) => some (b :: a, r)
    | none => none
  | _ => none

theorem unescList_escList (a b : List Nat) :
    unescList (escList a ++ 0 :: b) = some (a, b) := by
  induction a with
  | nil => rfl
  | cons x t ih =>
    show unescList (1 :: x :: (escList t ++ 0 :: b)) = some (x :: t, b)
    unfold unescList
    rw [ih]

theorem unescList_sound : ∀ (l a r : List Nat), unescList l = some (a, r) →
    l = escList a ++ 0 :: r
  | [], a, r => by intro h; simp [unescList] at h
  | 0 :: rest, a, r => by
    intro h
    simp only [unescList, Option.some.injEq, Prod.mk.injEq] at h
    obtain ⟨rfl, rfl⟩ := h
    rfl
  | [1], a, r => by intro h; simp [unescList] at h
  | 1 :: b :: rest, a, r => by
    intro h
    unfold unescList at h
    cases hr : unescList rest with
    | none => rw [hr] at h; simp at h
    | some pr =>
      obtain ⟨a2, r2⟩ := pr
      rw [hr] at h
      simp only [Option.some.injEq, Prod.mk.injEq] at h
      obtain ⟨ha, hr2⟩ := h
      have hrec := unescList_sound rest a2 r2 hr
      rw [← ha, ← hr2]
      show 1 :: b :: rest = escList (b :: a2) ++ 0 :: r2
      rw [hrec]
      rfl
  | (n + 2) :: rest, a, r => by intro h; simp [unescList] at h

theorem escList_lt (l : List Nat) (h : ∀ b ∈ l, b < 256) :
    ∀ b ∈ escList l, b < 256 := by
  intro b hb
  simp only [escList, List.mem_flatten, List.mem_map] at hb
  obtain ⟨e, he, hbe⟩ := hb
  obtain ⟨x, hx, rfl⟩ := he
  simp only [List.mem_cons, List.not_mem_nil, or_false] at hbe
  rcases hbe with rfl | rfl
  · omega
  · exact h _ hx

/-- The fixed associated-data string both cipher directions bind:
`Buffer.from('defence-mission-track', 'utf8')`. -/
def aadBytes : List Nat := strBytes "defence-mission-track"

/-- Ciphertext bytes produced by the ideal cipher for a given derived
password, AAD and plaintext byte list. -/
def gcmCiphertext (password aad pt : List Nat) : List Nat :=
  escList password ++ 0 :: (escList aad ++ 0 :: pt)

/-- Authentication tag bytes for the same triple (distinguished from the
ciphertext by a leading 2 marker). -/
def gcmTag (password aad pt : List Nat) : List Nat :=
  2 :: gcmCiphertext password aad pt

/-- Ideal-cipher decryption: recover the plaintext from the ciphertext and
check that password, AAD and tag are all consistent; any mismatch is a
failure (this is where `decipher.final()` throws on tag mismatch). -/
def gcmDecryptCore (password aad ct tag : List Nat) : Option (List Nat) :=
  match unescList ct with
  | some (pw, rest) =>
    match unescList rest with
    | some (a, pt) =>
      if pw = password ∧ a = aad ∧ tag = gcmTag password aad pt then some pt else none
    | none => none
  | none => none

theorem gcmDecryptCore_encrypt (password aad pt : List Nat) :
    gcmDecryptCore password aad (gcmCiphertext password aad pt)
      (gcmTag password aad pt) = some pt := by
  unfold gcmDecryptCore gcmCiphertext
  simp [unescList_escList]

theorem gcmDecryptCore_sound (password aad ct tag pt : List Nat)
    (h : gcmDecryptCore password aad ct tag = some pt) :
    ct = gcmCiphertext password aad pt ∧ tag = gcmTag password aad pt := by
  unfold gcmDecryptCore at h
  split at h
  · rename_i pw rest heq
    split at h
    · rename_i a pt2 heq2
      split at h
      · rename_i hcond
        obtain ⟨rfl, rfl, htag⟩ := hcond
        have hpt : pt2 = pt := by simpa using h
        have h1 := unescList_sound ct pw rest heq
        have h2 := unescList_sound rest a pt2 heq2
        constructor
        · rw [h1, h2, hpt]; rfl
        · rw [← hpt]; exact htag
      · simp at h
    · simp at h
  · simp at h

/-! ## EncryptionService (src/backend/src/utils/encryption.ts) -/

/-- KEY_LENGTH = 32 (256 bits). -/
def KEY_LENGTH : Nat := 32

/-- IV_LENGTH = 16 (128 bits). -/
def IV_LENGTH : Nat := 16

/-- The four-field envelope returned by EncryptionService.encrypt
(EncryptedMessage in src/backend/src/types). -/
structure EncryptedMessage where
  content : String
  encryptionKey : String
  iv : String
  tag : String
deriving Repr, DecidableEq

/-- EncryptionService.generateKey:
crypto.randomBytes(KEY_LENGTH).toString('hex'); the 32 random bytes drawn
from the OS entropy source are an explicit input here. -/
def generateKey (randomness : List Nat) : String := hexEncode randomness

/-- EncryptionService.encrypt(plaintext, key?).
`key ? Buffer.from(key, 'hex') : this.encryptionKey` makes an EMPTY key
string falsy in JavaScript, so both the cipher password and the
encryptionKey field fall back to the process default key in that case.
The random IV is placed in the envelope but never handed to the cipher
(crypto.createCipher derives key and IV from the password alone). -/
def encrypt (defaultKey : List Nat) (plaintext : String) (key : Option String)
    (ivRandom : List Nat) : EncryptedMessage :=
  let password : List Nat :=
    match key with
    | some k => if k = "" then defaultKey else hexDecode k
    | none => defaultKey
  let pt := strBytes plaintext
  { content := hexEncode (gcmCiphertext password aadBytes pt)
    encryptionKey :=
      match key with
      | some k => if k = "" then hexEncode defaultKey else k
      | none => hexEncode defaultKey
    iv := hexEncode ivRandom
    tag := hexEncode (gcmTag password aadBytes pt) }

/-- EncryptionService.encryptE2E: generates a fresh per-message key and
encrypts under it; `keyRandom` is the crypto.randomBytes(32) draw and
`ivRandom` the crypto.randomBytes(16) draw of this call. -/
def encryptE2E (defaultKey : List Nat) (plaintext : String)
    (keyRandom ivRandom : List Nat) : EncryptedMessage :=
  encrypt defaultKey plaintext (some (generateKey keyRandom)) ivRandom

/-- An envelope as it arrives at decrypt from a caller (e.g. req.body of
the decrypt endpoint): any of the four fields may be absent at runtime. -/
structure RawEnvelope where
  content : Option String
  encryptionKey : Option String
  iv : Option String
  tag : Option String
deriving Repr, DecidableEq

/-- How a decrypt call fails: a missing field makes Buffer.from(undefined)
throw a TypeError before the cipher runs; everything else that throws
(setAuthTag / decipher.final on inconsistent data) is an authentication
failure.  The codebase itself defines no DecryptionError class; decrypt
lets the underlying exceptions escape untyped. -/
inductive DecryptFailure where
  | missingField
  | authFailure
deriving Repr, DecidableEq

/-- EncryptionService.decrypt(encryptedMessage).
All four fields are hex-decoded with Node's forgiving decoder; the iv is
decoded but unused (createDecipher derives the IV from the password); the
plaintext is produced only if password, AAD and tag are consistent with
the ciphertext, otherwise the call fails with no partial output. -/
def decrypt (em : RawEnvelope) : Except DecryptFailure String :=
  match em.content, em.encryptionKey, em.iv, em.tag with
  | some content, some keyField, some ivField, some tagField =>
    let key := hexDecode keyField
    let _ivBuffer := hexDecode ivField
    let tagBuffer := hexDecode tagField
    match gcmDecryptCore key aadBytes (hexDecode content) tagBuffer with
    | some pt => Except.ok (bytesStr pt)
    | none => Except.error DecryptFailure.authFailure
  | _, _, _, _ => Except.error DecryptFailure.missingField

/-- View a complete envelope as the RawEnvelope decrypt receives. -/
def toRaw (e : EncryptedMessage) : RawEnvelope :=
  ⟨some e.content, some e.encryptionKey, some e.iv, some e.tag⟩

/-- The cipher password that `encrypt` uses for a given optional key. -/
def passwordOf (defaultKey : List Nat) (key : Option String) : List Nat :=
  match key with
  | some k => if k = "" then defaultKey else hexDecode k
  | none => defaultKey

theorem encrypt_content (defaultKey : List Nat) (P : String) (key : Option String)
    (iv : List Nat) : (encrypt defaultKey P key iv).content
      = hexEncode (gcmCiphertext (passwordOf defaultKey key) aadBytes (strBytes P)) := by
  cases key with
  | none => rfl
  | some k =>
    by_cases hk : k = "" <;> simp [encrypt, passwordOf, hk]

theorem encrypt_tag (defaultKey : List Nat) (P : String) (key : Option String)
    (iv : List Nat) : (encrypt defaultKey P key iv).tag
      = hexEncode (gcmTag (passwordOf defaultKey key) aadBytes (strBytes P)) := by
  cases key with
  | none => rfl
  | some k =>
    by_cases hk : k = "" <;> simp [encrypt, passwordOf, hk]

theorem encrypt_keyField_decodes (defaultKey : List Nat)
    (hdk : ∀ b ∈ defaultKey, b < 256) (P : String) (key : Option String)
    (iv : List Nat) : hexDecode (encrypt defaultKey P key iv).encryptionKey
      = passwordOf defaultKey key := by
  cases key with
  | none => exact hexDecode_hexEncode defaultKey hdk
  | some k =>
    by_cases hk : k = ""
    · simp only [encrypt, passwordOf, hk, if_true]
      exact hexDecode_hexEncode defaultKey hdk
    · simp [encrypt, passwordOf, hk]

theorem gcmCiphertext_lt (password aad pt : List Nat) (hp : ∀ b ∈ password, b < 256)
    (ha : ∀ b ∈ aad, b < 256) (hpt : ∀ b ∈ pt, b < 256) :
    ∀ b ∈ gcmCiphertext password aad pt, b < 256 := by
  intro b hb
  simp only [gcmCiphertext, List.mem_append, List.mem_cons] at hb
  rcases hb with h | h | h | h | h
  · exact escList_lt password hp b h
  · omega
  · exact escList_lt aad ha b h
  · omega
  · exact hpt b h

theorem gcmTag_lt (password aad pt : List Nat) (hp : ∀ b ∈ password, b < 256)
    (ha : ∀ b ∈ aad, b < 256) (hpt : ∀ b ∈ pt, b < 256) :
    ∀ b ∈ gcmTag password aad pt, b < 256 := by
  intro b hb
  rcases List.mem_cons.mp hb with rfl | h
  · omega
  · exact gcmCiphertext_lt password aad pt hp ha hpt b h

theorem aadBytes_lt : ∀ b ∈ aadBytes, b < 256 := strBytes_lt _

/-- Round trip of the EncryptionService: decrypt inverts encrypt for every
plaintext and every optional key (the password stored in the key field
always hex-decodes back to the password used by the cipher). -/
theorem decrypt_encrypt (defaultKey : List Nat) (hdk : ∀ b ∈ defaultKey, b < 256)
    (P : String) (key : Option String) (iv : List Nat) :
    decrypt (toRaw (encrypt defaultKey P key iv)) = Except.ok P := by
  have hpw : ∀ b ∈ passwordOf defaultKey key, b < 256 := by
    cases key with
    | none => exact hdk
    | some k =>
      by_cases hk : k = ""
      · simpa [passwordOf, hk] using hdk
      · simpa [passwordOf, hk] using hexDecode_lt k
  have hct := gcmCiphertext_lt (passwordOf defaultKey key) aadBytes (strBytes P)
    hpw aadBytes_lt (strBytes_lt P)
  have htg := gcmTag_lt (passwordOf defaultKey key) aadBytes (strBytes P)
    hpw aadBytes_lt (strBytes_lt P)
  have hkey := encrypt_keyField_decodes defaultKey hdk P key iv
  have hcontent := encrypt_content defaultKey P key iv
  have htag := encrypt_tag defaultKey P key iv
  show (match gcmDecryptCore (hexDecode (encrypt defaultKey P key iv).encryptionKey)
      aadBytes (hexDecode (encrypt defaultKey P key iv).content)
      (hexDecode (encrypt defaultKey P key iv).tag) with
    | some pt => Except.ok (bytesStr pt)
    | none => Except.error DecryptFailure.authFailure) = Except.ok P
  rw [hkey, hcontent, htag, hexDecode_hexEncode _ hct, hexDecode_hexEncode _ htg,
    gcmDecryptCore_encrypt]
  simp [bytesStr_strBytes]

/-! ## JSON serialization of the envelope

`sendMessage` stores `JSON.stringify(encrypted)` as the message content.
Field insertion order follows the object literal in encrypt: content,
encryptionKey, iv, tag.  The model is faithful for field values that need
no JSON string escaping, which holds for every envelope the service
produces (all four fields are hex strings). -/

/-- Characters of the literal piece that opens the serialized object. -/
def jsonK1 : List Char := "\x7b\"content\":\"".data

/-- Literal between the content value and the encryptionKey value
(the closing quote of the previous value is handled separately). -/
def jsonC2 : List Char := ",\"encryptionKey\":\"".data

/-- Literal between the encryptionKey value and the iv value. -/
def jsonC3 : List Char := ",\"iv\":\"".data

/-- Literal between the iv value and the tag value. -/
def jsonC4 : List Char := ",\"tag\":\"".data

/-- JSON.stringify of an envelope, producing the exact character stream
`\x7b"content":"..","encryptionKey":"..","iv":"..","tag":".."\x7d`. -/
def jsonOfEnvelope (e : EncryptedMessage) : String :=
  String.mk (jsonK1 ++ (e.content.data ++ ('"' :: (jsonC2 ++ (e.encryptionKey.data ++
    ('"' :: (jsonC3 ++ (e.iv.data ++ ('"' :: (jsonC4 ++ (e.tag.data ++
      ['"', '\x7d'])))))))))))

/-- Consume an expected literal from the front of a character stream. -/
def dropLit : List Char → List Char → Option (List Char)
  | [], s => some s
  | l :: lt, c :: ct => if l = c then dropLit lt ct else none
  | _ :: _, [] => none

/-- Split a character stream at the first double quote. -/
def splitAtQuote : List Char → Option (List Char × List Char)
  | [] => none
  | c :: rest =>
    if c = '"' then some ([], rest)
    else
      match splitAtQuote rest with
      | some (a, r) => some (c :: a, r)
      | none => none

/-- JSON.parse for the serialized envelope shape (the inverse direction a
client uses on the stored message content before calling decrypt). -/
def parseEnvelopeJson (s : String) : Option EncryptedMessage := do
  let r1 ← dropLit jsonK1 s.data
  let (cv, r2) ← splitAtQuote r1
  let r3 ← dropLit jsonC2 r2
  let (kv, r4) ← splitAtQuote r3
  let r5 ← dropLit jsonC3 r4
  let (iv, r6) ← splitAtQuote r5
  let r7 ← dropLit jsonC4 r6
  let (tv, r8) ← splitAtQuote r7
  if r8 = ['\x7d'] then
    some ⟨String.mk cv, String.mk kv, String.mk iv, String.mk tv⟩
  else none

theorem data_mk (l : List Char) : (String.mk l).data = l := rfl

theorem dropLit_append : ∀ (l s : List Char), dropLit l (l ++ s) = some s
  | [], s => rfl
  | c :: lt, s => by
    show dropLit (c :: lt) (c :: (lt ++ s)) = some s
    unfold dropLit
    rw [if_pos rfl]
    exact dropLit_append lt s

/-- A value with no double quote is split off exactly at its terminator. -/
theorem splitAtQuote_append (v r : List Char) (hv : ∀ c ∈ v, c ≠ '"') :
    splitAtQuote (v ++ '"' :: r) = some (v, r) := by
  induction v with
  | nil =>
    show splitAtQuote ('"' :: r) = some ([], r)
    unfold splitAtQuote
    rw [if_pos rfl]
  | cons c t ih =>
    have hc : c ≠ '"' := hv c (List.mem_cons_self c t)
    have ht : ∀ x ∈ t, x ≠ '"' := fun x hx => hv x (List.mem_cons_of_mem c hx)
    show splitAtQuote (c :: (t ++ '"' :: r)) = some (c :: t, r)
    unfold splitAtQuote
    rw [if_neg hc, ih ht]

theorem char_ofNat_toNat_eq (n : Nat) :
    (Char.ofNat n).toNat = n ∨ (Char.ofNat n).toNat = 0 := by
  unfold Char.ofNat
  by_cases h : n.isValidChar
  · rw [dif_pos h]
    left
    rfl
  · rw [dif_neg h]
    right
    rfl

theorem hexDigitChar_ne_quote (d : Nat) : hexDigitChar d ≠ '"' := by
  intro h
  have h34 : (hexDigitChar d).toNat = 34 := by rw [h]; rfl
  unfold hexDigitChar at h34
  by_cases hd : d < 10
  · rw [if_pos hd] at h34
    rcases char_ofNat_toNat_eq (48 + d) with he | he <;> rw [he] at h34 <;> omega
  · rw [if_neg hd] at h34
    rcases char_ofNat_toNat_eq (87 + d) with he | he <;> rw [he] at h34 <;> omega

theorem hexEncode_noQuote (l : List Nat) : ∀ c ∈ (hexEncode l).data, c ≠ '"' := by
  intro c hc
  simp only [hexEncode, List.mem_flatten, List.mem_map] at hc
  obtain ⟨e, he, hce⟩ := hc
  obtain ⟨b, _, rfl⟩ := he
  simp only [hexEncodeByte, List.mem_cons, List.not_mem_nil, or_false] at hce
  rcases hce with rfl | rfl <;> exact hexDigitChar_ne_quote _

/-- Parsing inverts serialization for envelopes whose fields contain no
double quote (every envelope the service produces is of that shape). -/
theorem parse_jsonOfEnvelope (e : EncryptedMessage)
    (h1 : ∀ c ∈ e.content.data, c ≠ '"') (h2 : ∀ c ∈ e.encryptionKey.data, c ≠ '"')
    (h3 : ∀ c ∈ e.iv.data, c ≠ '"') (h4 : ∀ c ∈ e.tag.data, c ≠ '"') :
    parseEnvelopeJson (jsonOfEnvelope e) = some e := by
  unfold parseEnvelopeJson jsonOfEnvelope
  rw [data_mk, dropLit_append]
  simp only [Option.bind_eq_bind, Option.some_bind]
  rw [splitAtQuote_append _ _ h1]
  simp only [Option.some_bind]
  rw [dropLit_append]
  simp only [Option.some_bind]
  rw [splitAtQuote_append _ _ h2]
  simp only [Option.some_bind]
  rw [dropLit_append]
  simp only [Option.some_bind]
  rw [splitAtQuote_append _ _ h3]
  simp only [Option.some_bind]
  rw [dropLit_append]
  simp only [Option.some_bind]
  rw [splitAtQuote_append _ _ h4]
  simp only [Option.some_bind, if_true]

/-! ## Length and freshness facts about envelopes -/

theorem hexEncode_length (l : List Nat) : (hexEncode l).data.length = 2 * l.length := by
  induction l with
  | nil => rfl
  | cons b t ih =>
    show (hexEncodeByte b ++ (t.map hexEncodeByte).flatten).length = 2 * (b :: t).length
    rw [List.length_append]
    have : ((t.map hexEncodeByte).flatten).length = 2 * t.length := ih
    simp [hexEncodeByte, this]
    omega

theorem escList_length (l : List Nat) : (escList l).length = 2 * l.length := by
  induction l with
  | nil => rfl
  | cons b t ih =>
    show ([1, b] ++ (t.map (fun x => [1, x])).flatten).length = 2 * (b :: t).length
    rw [List.length_append]
    have : ((t.map (fun x => [1, x])).flatten).length = 2 * t.length := ih
    simp [this]
    omega

theorem gcmCiphertext_length (password aad pt : List Nat) :
    (gcmCiphertext password aad pt).length
      = 2 * password.length + 2 * aad.length + 2 + pt.length := by
  simp [gcmCiphertext, escList_length]
  omega

theorem hexEncode_ne_empty (l : List Nat) (h : l ≠ []) : hexEncode l ≠ "" := by
  cases l with
  | nil => exact absurd rfl h
  | cons b t =>
    intro he
    have hd := congrArg String.data he
    have : (hexEncode (b :: t)).data
        = hexDigitChar (b / 16) :: hexDigitChar (b % 16) :: (t.map hexEncodeByte).flatten := rfl
    rw [this] at hd
    exact absurd hd (by simp [String.data])

/-- The key field of an E2E envelope is exactly the freshly generated key. -/
theorem encryptE2E_key (dk : List Nat) (P : String) (r iv : List Nat) (hr : r ≠ []) :
    (encryptE2E dk P r iv).encryptionKey = hexEncode r := by
  unfold encryptE2E encrypt generateKey
  simp [hexEncode_ne_empty r hr]

/-- The ciphertext of an E2E envelope is the ideal-cipher output under the
freshly generated key bytes. -/
theorem encryptE2E_content (dk : List Nat) (P : String) (r iv : List Nat)
    (h : ∀ b ∈ r, b < 256) (hr : r ≠ []) :
    (encryptE2E dk P r iv).content
      = hexEncode (gcmCiphertext r aadBytes (strBytes P)) := by
  unfold encryptE2E
  rw [encrypt_content]
  unfold passwordOf generateKey
  simp [hexEncode_ne_empty r hr, hexDecode_hexEncode r h]

theorem gcmCiphertext_inj_password (pw1 pw2 aad1 aad2 pt1 pt2 : List Nat)
    (h : gcmCiphertext pw1 aad1 pt1 = gcmCiphertext pw2 aad2 pt2) : pw1 = pw2 := by
  have h1 : unescList (gcmCiphertext pw1 aad1 pt1)
      = some (pw1, escList aad1 ++ 0 :: pt1) := unescList_escList _ _
  have h2 : unescList (gcmCiphertext pw2 aad2 pt2)
      = some (pw2, escList aad2 ++ 0 :: pt2) := unescList_escList _ _
  rw [h, h2] at h1
  simp only [Option.some.injEq, Prod.mk.injEq] at h1
  exact h1.1.symm

/-- The serialized envelope always carries its own key field verbatim. -/
theorem jsonOfEnvelope_carries_key (e : EncryptedMessage) :
    ∃ a b : List Char, (jsonOfEnvelope e).data = a ++ e.encryptionKey.data ++ b := by
  refine ⟨jsonK1 ++ (e.content.data ++ ('"' :: jsonC2)),
    '"' :: (jsonC3 ++ (e.iv.data ++ ('"' :: (jsonC4 ++ (e.tag.data ++ ['"', '\x7d']))))), ?_⟩
  simp [jsonOfEnvelope, data_mk]

/-- A serialized envelope is strictly longer than the plaintext it encrypts
(so the stored ciphertext content is never the submitted plaintext). -/
theorem jsonOfEnvelope_encryptE2E_ne (dk : List Nat) (P : String) (r iv : List Nat)
    (h : ∀ b ∈ r, b < 256) (hr : r ≠ []) :
    jsonOfEnvelope (encryptE2E dk P r iv) ≠ P := by
  intro he
  have hlen := congrArg (fun s => s.data.length) he
  simp only at hlen
  have hcontent := encryptE2E_content dk P r iv h hr
  have hclen : (encryptE2E dk P r iv).content.data.length
      = 2 * (2 * r.length + 2 * aadBytes.length + 2 + 3 * P.data.length) := by
    rw [hcontent, hexEncode_length, gcmCiphertext_length, strBytes_length]
  have hjson : (jsonOfEnvelope (encryptE2E dk P r iv)).data.length
      = jsonK1.length + ((encryptE2E dk P r iv).content.data.length
        + (1 + (jsonC2.length + ((encryptE2E dk P r iv).encryptionKey.data.length
        + (1 + (jsonC3.length + ((encryptE2E dk P r iv).iv.data.length
        + (1 + (jsonC4.length + ((encryptE2E dk P r iv).tag.data.length + 2)))))))))) := by
    simp [jsonOfEnvelope, data_mk, List.length_append]
    omega
  have hk1 : jsonK1.length = 12 := rfl
  rw [hjson, hk1, hclen] at hlen
  omega

/-! ## RecordStore state (the Supabase tables the claims touch) -/

/-- A row of the teams table. -/
structure TeamRow where
  id : String
  name : String
  description : String
deriving Repr, DecidableEq

/-- A row of the team_members table (unique per (team, user)). -/
structure TeamMemberRow where
  team_id : String
  user_id : String
  role : String
  status : String
deriving Repr, DecidableEq

/-- A row of the messages table. -/
structure MessageRow where
  id : String
  team_id : String
  mission_id : Option String
  sender_id : String
  content : String
  is_encrypted : Bool
deriving Repr, DecidableEq

/-- A row of the notifications table (read flag and timestamps omitted:
no claim touches them). -/
structure NotificationRow where
  user_id : String
  type : String
  title : String
  content : String
deriving Repr, DecidableEq

/-- The RecordStore contents. -/
structure DbState where
  teams : List TeamRow
  team_members : List TeamMemberRow
  messages : List MessageRow
  notifications : List NotificationRow
deriving Repr, DecidableEq

/-! ## DatabaseService query helpers (src/backend/src/config/database.ts) -/

/-- `.from('team_members').select(..).eq('user_id', u).eq('team_id', t)
.single()`: the row, or the PGRST116 error when no row matches. -/
def singleMembership (st : DbState) (userId teamId : String) :
    Except String TeamMemberRow :=
  match st.team_members.find? (fun m => m.user_id == userId && m.team_id == teamId) with
  | some row => Except.ok row
  | none => Except.error "PGRST116: no rows returned"

/-- DatabaseService.isTeamMember: `return !error && !!data`; the no-row
error from .single() becomes false, it is not propagated. -/
def isTeamMember (st : DbState) (userId teamId : String) : Bool :=
  match singleMembership st userId teamId with
  | Except.ok _ => true
  | Except.error _ => false

/-- DatabaseService.isTeamLeader: `!error && data?.role === 'leader'`. -/
def isTeamLeader (st : DbState) (userId teamId : String) : Bool :=
  match singleMembership st userId teamId with
  | Except.ok row => row.role == "leader"
  | Except.error _ => false

/-- DatabaseService.getTeamMembers: membership rows of a team. -/
def getTeamMembers (st : DbState) (teamId : String) : List TeamMemberRow :=
  st.team_members.filter (fun m => m.team_id == teamId)

/-- DatabaseService.getUserTeams, reduced to the team ids the user belongs
to (the only part the realtime layer consumes). -/
def getUserTeams (st : DbState) (userId : String) : List String :=
  (st.team_members.filter (fun m => m.user_id == userId)).map (fun m => m.team_id)

/-- `.from('teams').select('*').eq('id', id).single()` as an Option. -/
def findTeam (st : DbState) (teamId : String) : Option TeamRow :=
  st.teams.find? (fun t => t.id == teamId)

/-- `.from('team_members').update({status}).eq('user_id',u).eq('team_id',t)`. -/
def setMemberStatus (st : DbState) (userId teamId status : String) : DbState :=
  { st with team_members := st.team_members.map (fun m =>
      if m.user_id == userId && m.team_id == teamId then
        { m with status := status } else m) }

/-- ConnectionRegistry: the connectedUsers map userId -> socketId. -/
def lookupSocket (conn : List (String × String)) (userId : String) : Option String :=
  (conn.find? (fun p => p.1 == userId)).map (fun p => p.2)

/-! ## Realtime effects -/

/-- The messageWithSender object that sendMessage both broadcasts in the
message:new event and returns in its own response (sender profile reduced
to the email; the claims only inspect content and the key). -/
structure MessagePayload where
  id : String
  team_id : String
  mission_id : Option String
  sender_id : String
  content : String
  is_encrypted : Bool
  senderEmail : String
deriving Repr, DecidableEq

/-- One observable effect of a handler, in emission order. -/
inductive Action where
  | persistStatus (userId teamId status : String) (ok : Bool)
  | statusBroadcast (room userId status teamId : String)
  | emitError (socketId message : String)
  | notifInsert (row : NotificationRow)
  | notifUnicast (socketId : String) (row : NotificationRow)
  | messageBroadcast (room : String) (payload : MessagePayload)
  | joinRoom (room : String)
  | closeConnection (socketId : String)
deriving Repr, DecidableEq

/-! ## WebSocketService handlers (src/backend/src/routes, WebSocket part) -/

/-- WebSocketService.joinTeam (join_team handler): re-validates membership
and emits an in-band error event to the requesting socket only when the
check fails; the connection stays open (no closeConnection action) and the
room is joined only on success. -/
def joinTeam (st : DbState) (socketId userId teamId : String) : List Action :=
  if isTeamMember st userId teamId then [Action.joinRoom ("team:" ++ teamId)]
  else [Action.emitError socketId "Not a team member"]

/-- WebSocketService.joinUserTeams (auto-join on connect): joins a room for
every team of the user as recorded at connect time. -/
def joinUserTeams (st : DbState) (userId : String) : List Action :=
  (getUserTeams st userId).map (fun tid => Action.joinRoom ("team:" ++ tid))

/-- Notification row created by the status_update handler. -/
def statusChangeNotifRow (userName status targetUserId : String) : NotificationRow :=
  ⟨targetUserId, "status_change", "Team Member Status Update",
    userName ++ " status changed to " ++ status⟩

/-- WebSocketService status_update handler: membership gate, persistence
write (its in-band success is the persistOk parameter), then the
user:status_update room broadcast, then one notification insert per other
member with a notification:new unicast to those currently connected.
`userName` is the display name resolved from getUserById. -/
def statusUpdateHandler (st : DbState) (conn : List (String × String))
    (socketId userId userName teamId status : String) (persistOk : Bool) :
    DbState × List Action :=
  if isTeamMember st userId teamId = false then
    (st, [Action.emitError socketId "Not a team member"])
  else if persistOk = false then
    (st, [Action.persistStatus userId teamId status false,
          Action.emitError socketId "Failed to update status"])
  else
    let st1 := setMemberStatus st userId teamId status
    let others := (getTeamMembers st1 teamId).filter (fun m => m.user_id != userId)
    let notifRows := others.map (fun m => statusChangeNotifRow userName status m.user_id)
    let notifActs := (others.map (fun m =>
      Action.notifInsert (statusChangeNotifRow userName status m.user_id) ::
      (match lookupSocket conn m.user_id with
       | some sid => [Action.notifUnicast sid (statusChangeNotifRow userName status m.user_id)]
       | none => []))).flatten
    ({ st1 with notifications := st1.notifications ++ notifRows },
     Action.persistStatus userId teamId status true ::
     Action.statusBroadcast ("team:" ++ teamId) userId status teamId :: notifActs)

/-- WebSocketService.updateUserOfflineStatus loop body over the user teams:
the supabase update result is ignored by the code, so a per-team
persistence failure (persistOk tid = false) neither stops the loop nor
suppresses that team broadcast. -/
def updateUserOfflineStatus (userId : String) (persistOk : String → Bool) :
    DbState → List String → DbState × List Action
  | st, [] => (st, [])
  | st, tid :: rest =>
    let st1 := if persistOk tid then setMemberStatus st userId tid "offline" else st
    let out := updateUserOfflineStatus userId persistOk st1 rest
    (out.1, Action.persistStatus userId tid "offline" (persistOk tid) ::
            Action.statusBroadcast ("team:" ++ tid) userId "offline" tid :: out.2)

/-- WebSocketService disconnect handler: delete the user from the
connectedUsers registry, then run updateUserOfflineStatus over the teams
of the user. -/
def disconnectHandler (st : DbState) (conn : List (String × String)) (userId : String)
    (persistOk : String → Bool) : List (String × String) × DbState × List Action :=
  let conn1 := conn.filter (fun p => p.1 != userId)
  let out := updateUserOfflineStatus userId persistOk st (getUserTeams st userId)
  (conn1, out.1, out.2)

/-! ## TeamController (src/backend/src/controllers) -/

/-- TeamController.createTeam: insert the team row, then insert the
creator membership (role leader, status offline); when the membership
insert fails the just-created team row is deleted again (the explicit
rollback) and the request answers 400.  The two in-band insert outcomes
are the boolean parameters; newTeamId is the id the store generated. -/
def createTeam (st : DbState) (actorId name description newTeamId : String)
    (teamInsertOk memberInsertOk : Bool) : Nat × DbState :=
  if teamInsertOk = false then (400, st)
  else
    let st1 := { st with teams := st.teams ++ [TeamRow.mk newTeamId name description] }
    if memberInsertOk = false then
      (400, { st1 with teams := st1.teams.filter (fun t => t.id != newTeamId) })
    else
      let newRow := TeamMemberRow.mk newTeamId actorId "leader" "offline"
      (201, { st1 with team_members := st1.team_members ++ [newRow] })

/-- The leaders query of removeTeamMember:
`.select('id').eq('team_id', t).eq('role', 'leader')`. -/
def leadersOf (st : DbState) (teamId : String) : List TeamMemberRow :=
  st.team_members.filter (fun m => m.team_id == teamId && m.role == "leader")

/-- TeamController.removeTeamMember: 403 unless the actor is a leader or
removes themself; a self-removing leader is refused with HTTP 400 when the
team has at most one leader row; otherwise the membership row is deleted
and the request answers 200. -/
def removeTeamMember (st : DbState) (actorId teamId userId : String) : Nat × DbState :=
  let isLeader := isTeamLeader st actorId teamId
  let isRemovingSelf := actorId == userId
  if isLeader = false ∧ isRemovingSelf = false then (403, st)
  else if isRemovingSelf = true ∧ isLeader = true ∧ (leadersOf st teamId).length ≤ 1 then
    (400, st)
  else
    let remaining := st.team_members.filter
      (fun m => !(m.team_id == teamId && m.user_id == userId))
    (200, { st with team_members := remaining })

/-- TeamController.addTeamMember (the path that promotes a second leader
when called with role 'leader'): leader-gated, 409 for existing members,
inserts the membership row with status offline and creates the Team
Invitation alert.  `teamName` is the already-resolved
`req.body.teamName || 'Unknown Team'` value. -/
def addTeamMember (st : DbState) (actorId teamId newUserId role teamName : String) :
    Nat × DbState :=
  if isTeamLeader st actorId teamId = false then (403, st)
  else if isTeamMember st newUserId teamId = true then (409, st)
  else
    let newRow := TeamMemberRow.mk teamId newUserId role "offline"
    let invite := NotificationRow.mk newUserId "alert" "Team Invitation"
      ("You have been added to team \"" ++ teamName ++ "\"")
    (201, { st with
      team_members := st.team_members ++ [newRow],
      notifications := st.notifications ++ [invite] })

/-! ## MessageController.sendMessage -/

/-- Notification row created by sendMessage for every other team member. -/
def messageNotifRow (senderName targetUserId : String) : NotificationRow :=
  ⟨targetUserId, "message", "New Message",
    "New message from " ++ senderName ++ " in team chat"⟩

/-- The response data of a successful sendMessage:
`{ message: messageWithSender, encryptionKey: encryptionData?.encryptionKey || null }`. -/
structure SendMessageData where
  payload : MessagePayload
  encryptionKey : Option String
deriving Repr, DecidableEq

/-- Full outcome of one sendMessage request. -/
structure SendMessageResult where
  status : Nat
  db : DbState
  actions : List Action
  responseData : Option SendMessageData
deriving Repr, DecidableEq

/-- MessageController.sendMessage: membership gate; when is_encrypted,
encryptE2E the content and store JSON.stringify of the envelope; insert
the message row (in-band outcome insertOk); create one notification of
type message per team member other than the sender; broadcast message:new
with the messageWithSender payload to the team room; answer 201 with the
payload plus the generated key (null when not encrypted).  `senderName` is
`sender.profile?.first_name || sender.email`. -/
def sendMessage (st : DbState) (senderId senderEmail senderName team_id : String)
    (mission_id : Option String) (content : String) (is_encrypted : Bool)
    (defaultKey keyRandom ivRandom : List Nat) (newMessageId : String)
    (insertOk : Bool) : SendMessageResult :=
  if isTeamMember st senderId team_id = false then
    ⟨403, st, [], none⟩
  else
    let encryptionData : Option EncryptedMessage :=
      if is_encrypted then some (encryptE2E defaultKey content keyRandom ivRandom)
      else none
    let processedContent :=
      match encryptionData with
      | some env => jsonOfEnvelope env
      | none => content
    if insertOk = false then ⟨400, st, [], none⟩
    else
      let row : MessageRow :=
        ⟨newMessageId, team_id, mission_id, senderId, processedContent, is_encrypted⟩
      let st1 := { st with messages := st.messages ++ [row] }
      let payload : MessagePayload :=
        ⟨newMessageId, team_id, mission_id, senderId, processedContent, is_encrypted,
          senderEmail⟩
      let others := (getTeamMembers st1 team_id).filter (fun m => m.user_id != senderId)
      let notifRows := others.map (fun m => messageNotifRow senderName m.user_id)
      let st2 := { st1 with notifications := st1.notifications ++ notifRows }
      ⟨201, st2,
        (notifRows.map Action.notifInsert)
          ++ [Action.messageBroadcast ("team:" ++ team_id) payload],
        some ⟨payload,
          match encryptionData with
          | some env => if env.encryptionKey = "" then none else some env.encryptionKey
          | none => none⟩⟩

/-! ## Concrete sample inputs used by witnesses and counterexamples -/

/-- A process default key (32 utf8 bytes of the configured secret). -/
def defaultKeyEx : List Nat := List.replicate 32 97

/-- A concrete crypto.randomBytes(32) draw. -/
def keyDraw1 : List Nat := List.replicate 32 5

/-- A second, different crypto.randomBytes(32) draw. -/
def keyDraw2 : List Nat := List.replicate 32 7

/-- A concrete crypto.randomBytes(16) draw for the unused IV field. -/
def ivDraw : List Nat := List.replicate 16 3

/-! ## Claims -/

/-- C3: for every plaintext string P, decrypt(encryptE2E(P)) equals P, and
two calls to encryptE2E with the same P whose 32-byte random key draws
differ (the model of fresh randomness never colliding) produce envelopes
with different keys and different ciphertexts — no key reuse. -/
theorem c3_roundtrip_freshness (defaultKey : List Nat)
    (hdk : ∀ b ∈ defaultKey, b < 256) (P : String) (r1 r2 iv1 iv2 : List Nat)
    (h1 : ∀ b ∈ r1, b < 256) (h2 : ∀ b ∈ r2, b < 256)
    (hlen1 : r1.length = KEY_LENGTH) (hlen2 : r2.length = KEY_LENGTH)
    (hne : r1 ≠ r2) :
    decrypt (toRaw (encryptE2E defaultKey P r1 iv1)) = Except.ok P ∧
    (encryptE2E defaultKey P r1 iv1).encryptionKey
      ≠ (encryptE2E defaultKey P r2 iv2).encryptionKey ∧
    (encryptE2E defaultKey P r1 iv1).content
      ≠ (encryptE2E defaultKey P r2 iv2).content := by
  have hn1 : r1 ≠ [] := by
    intro h
    rw [h] at hlen1
    simp [KEY_LENGTH] at hlen1
  have hn2 : r2 ≠ [] := by
    intro h
    rw [h] at hlen2
    simp [KEY_LENGTH] at hlen2
  refine ⟨decrypt_encrypt defaultKey hdk P _ iv1, ?_, ?_⟩
  · rw [encryptE2E_key _ _ _ _ hn1, encryptE2E_key _ _ _ _ hn2]
    intro he
    exact hne (hexEncode_injOn r1 r2 h1 h2 he)
  · rw [encryptE2E_content _ _ _ _ h1 hn1, encryptE2E_content _ _ _ _ h2 hn2]
    intro he
    have hb1 := gcmCiphertext_lt r1 aadBytes (strBytes P) h1 aadBytes_lt (strBytes_lt P)
    have hb2 := gcmCiphertext_lt r2 aadBytes (strBytes P) h2 aadBytes_lt (strBytes_lt P)
    exact hne (gcmCiphertext_inj_password _ _ _ _ _ _ (hexEncode_injOn _ _ hb1 hb2 he))

/-- Witness for C3 at concrete inputs: plaintext "status?", two distinct
32-byte draws. -/
theorem c3_roundtrip_freshness_witness :
    decrypt (toRaw (encryptE2E defaultKeyEx "status?" keyDraw1 ivDraw))
      = Except.ok "status?" ∧
    (encryptE2E defaultKeyEx "status?" keyDraw1 ivDraw).encryptionKey
      ≠ (encryptE2E defaultKeyEx "status?" keyDraw2 ivDraw).encryptionKey ∧
    (encryptE2E defaultKeyEx "status?" keyDraw1 ivDraw).content
      ≠ (encryptE2E defaultKeyEx "status?" keyDraw2 ivDraw).content :=
  c3_roundtrip_freshness defaultKeyEx (by decide) "status?" keyDraw1 keyDraw2
    ivDraw ivDraw (by decide) (by decide) (by decide) (by decide) (by decide)

/-- C2 (counterexample): the claim as stated is false on two counts.
(1) Key length is never validated: crypto.createDecipher treats the key
bytes as a password of any length, so an envelope encrypted under the
4-character key "aabb" (2 bytes instead of 32) decrypts successfully.
(2) Malformed hex does not make decrypt fail: Node Buffer hex decoding
silently drops trailing invalid characters, so an envelope whose tag field
carries the trailing garbage "zz" still decrypts to the full plaintext. -/
def tamperedEnvelope : RawEnvelope :=
  let e := encryptE2E defaultKeyEx "hello" keyDraw1 ivDraw
  toRaw { e with tag := e.tag ++ "zz" }

set_option maxRecDepth 16000 in
/-- C2 (counterexample), see tamperedEnvelope for the malformed-hex side. -/
theorem c2_counterexample :
    (decrypt (toRaw (encrypt defaultKeyEx "hello" (some "aabb") ivDraw))
        = Except.ok "hello" ∧
      (encrypt defaultKeyEx "hello" (some "aabb") ivDraw).encryptionKey = "aabb" ∧
      ("aabb" : String).length ≠ 2 * KEY_LENGTH) ∧
    (∃ base : EncryptedMessage, tamperedEnvelope.tag = some (base.tag ++ "zz") ∧
      hexDecodeList (base.tag ++ "zz").data ≠ [] ∧
      ¬ (∀ ch ∈ (base.tag ++ "zz").data, isHexDigit ch = true)) ∧
    decrypt tamperedEnvelope = Except.ok "hello" := by
  refine ⟨⟨rfl, rfl, by decide⟩, ?_, rfl⟩
  exact ⟨encryptE2E defaultKeyEx "hello" keyDraw1 ivDraw, rfl, by decide, by decide⟩

/-- C2 (amended): decrypt does fail closed — it returns no plaintext at
all when any of the four fields is missing (missingField) or when the
forgivingly hex-decoded key, ciphertext and tag are not mutually
consistent (authFailure, the tag check); a plaintext is produced only from
an envelope whose tag verifies against its own key and ciphertext.  But
malformed hex is not itself rejected (trailing invalid characters are
silently dropped by Buffer.from) and no key-length check exists (the
password-based createDecipher accepts any length), so those two failure
triggers of the original claim do not hold; and the failure is an untyped
thrown error — the codebase defines no DecryptionError class. -/
theorem c2_amended_fail_closed (em : RawEnvelope) :
    ((em.content = none ∨ em.encryptionKey = none ∨ em.iv = none ∨ em.tag = none) →
      decrypt em = Except.error DecryptFailure.missingField) ∧
    (∀ P, decrypt em = Except.ok P →
      ∃ c k i t pt, em = RawEnvelope.mk (some c) (some k) (some i) (some t) ∧
        hexDecode c = gcmCiphertext (hexDecode k) aadBytes pt ∧
        hexDecode t = gcmTag (hexDecode k) aadBytes pt ∧
        P = bytesStr pt) := by
  obtain ⟨c, k, i, t⟩ := em
  constructor
  · intro h
    cases c <;> cases k <;> cases i <;> cases t <;> simp [decrypt]
    simp at h
  · intro P hP
    cases c with
    | none => simp [decrypt] at hP
    | some cv =>
      cases k with
      | none => simp [decrypt] at hP
      | some kv =>
        cases i with
        | none => simp [decrypt] at hP
        | some ivv =>
          cases t with
          | none => simp [decrypt] at hP
          | some tv =>
            have hP2 : (match gcmDecryptCore (hexDecode kv) aadBytes (hexDecode cv)
                  (hexDecode tv) with
                | some pt => Except.ok (bytesStr pt)
                | none => Except.error DecryptFailure.authFailure) = Except.ok P := hP
            cases hg : gcmDecryptCore (hexDecode kv) aadBytes (hexDecode cv)
                (hexDecode tv) with
            | none => rw [hg] at hP2; simp at hP2
            | some pt0 =>
              rw [hg] at hP2
              have hsound := gcmDecryptCore_sound _ _ _ _ _ hg
              refine ⟨cv, kv, ivv, tv, pt0, rfl, hsound.1, hsound.2, ?_⟩
              simpa using hP2.symm

/-- Witness for C2 (amended): a missing content field fails closed with
missingField at a concrete envelope. -/
theorem c2_amended_fail_closed_witness :
    decrypt (RawEnvelope.mk none (some "aa") (some "bb") (some "cc"))
      = Except.error DecryptFailure.missingField :=
  (c2_amended_fail_closed (RawEnvelope.mk none (some "aa") (some "bb") (some "cc"))).1
    (Or.inl rfl)

/-- C10: the envelope returned by encrypt (hence encryptE2E) carries in
its encryptionKey field the very key whose bytes encrypt the ciphertext;
the serialized envelope that sendMessage persists therefore carries its
own decryption key, and anyone holding the stored content can parse it and
decrypt it with no out-of-band key. -/
theorem c10_envelope_self_contained (defaultKey : List Nat)
    (hdk : ∀ b ∈ defaultKey, b < 256) (P : String) (r iv : List Nat)
    (hr : ∀ b ∈ r, b < 256) (hn : r ≠ []) :
    (encryptE2E defaultKey P r iv).encryptionKey = generateKey r ∧
    (encryptE2E defaultKey P r iv).content
      = hexEncode (gcmCiphertext (hexDecode (encryptE2E defaultKey P r iv).encryptionKey)
          aadBytes (strBytes P)) ∧
    parseEnvelopeJson (jsonOfEnvelope (encryptE2E defaultKey P r iv))
      = some (encryptE2E defaultKey P r iv) ∧
    decrypt (toRaw (encryptE2E defaultKey P r iv)) = Except.ok P := by
  have hkey : (encryptE2E defaultKey P r iv).encryptionKey = hexEncode r :=
    encryptE2E_key defaultKey P r iv hn
  refine ⟨hkey, ?_, ?_, decrypt_encrypt defaultKey hdk P _ iv⟩
  · rw [hkey, hexDecode_hexEncode r hr]
    exact encryptE2E_content defaultKey P r iv hr hn
  · apply parse_jsonOfEnvelope
    · rw [encryptE2E_content defaultKey P r iv hr hn]
      exact hexEncode_noQuote _
    · rw [hkey]
      exact hexEncode_noQuote r
    · exact hexEncode_noQuote iv
    · show ∀ c ∈ (encrypt defaultKey P (some (generateKey r)) iv).tag.data, c ≠ '"'
      rw [encrypt_tag]
      exact hexEncode_noQuote _

/-- Witness for C10 at a concrete plaintext and key draw. -/
theorem c10_envelope_self_contained_witness :
    (encryptE2E defaultKeyEx "status?" keyDraw1 ivDraw).encryptionKey
      = generateKey keyDraw1 ∧
    (encryptE2E defaultKeyEx "status?" keyDraw1 ivDraw).content
      = hexEncode (gcmCiphertext
          (hexDecode (encryptE2E defaultKeyEx "status?" keyDraw1 ivDraw).encryptionKey)
          aadBytes (strBytes "status?")) ∧
    parseEnvelopeJson (jsonOfEnvelope (encryptE2E defaultKeyEx "status?" keyDraw1 ivDraw))
      = some (encryptE2E defaultKeyEx "status?" keyDraw1 ivDraw) ∧
    decrypt (toRaw (encryptE2E defaultKeyEx "status?" keyDraw1 ivDraw))
      = Except.ok "status?" :=
  c10_envelope_self_contained defaultKeyEx (by decide) "status?" keyDraw1 ivDraw
    (by decide) (by decide)

/-- C5: when the creator-membership insert fails after the team row was
persisted, createTeam deletes the just-created team row, so the request
answers 400 and a subsequent RecordStore lookup of the new team id returns
not-found. -/
theorem c5_create_team_rollback (st : DbState)
    (actorId name description newTeamId : String) :
    (createTeam st actorId name description newTeamId true false).1 = 400 ∧
    findTeam (createTeam st actorId name description newTeamId true false).2 newTeamId
      = none := by
  constructor
  · rfl
  · show ((st.teams ++ [TeamRow.mk newTeamId name description]).filter
      (fun t => t.id != newTeamId)).find? (fun t => t.id == newTeamId) = none
    rw [List.find?_eq_none]
    intro x hx hp
    have hmem := List.mem_filter.mp hx
    have h1 : x.id = newTeamId := by simpa using hp
    have h2 : x.id ≠ newTeamId := by simpa using hmem.2
    exact h2 h1

/-- A leader check certifies a leader membership row. -/
theorem isTeamLeader_row (st : DbState) (u t : String)
    (h : isTeamLeader st u t = true) :
    ∃ row, st.team_members.find? (fun m => m.user_id == u && m.team_id == t)
        = some row ∧ row ∈ st.team_members ∧ row.user_id = u ∧ row.team_id = t ∧
      row.role = "leader" := by
  unfold isTeamLeader singleMembership at h
  cases hf : st.team_members.find? (fun m => m.user_id == u && m.team_id == t) with
  | none => rw [hf] at h; simp at h
  | some row =>
    rw [hf] at h
    have hrole : (row.role == "leader") = true := h
    have hmem := List.mem_of_find?_eq_some hf
    have hp := List.find?_some hf
    simp only [Bool.and_eq_true, beq_iff_eq] at hp hrole
    exact ⟨row, rfl, hmem, hp.1, hp.2, hrole⟩

/-- A leader check forces at least one leader row in the team. -/
theorem isTeamLeader_leaders_pos (st : DbState) (u t : String)
    (h : isTeamLeader st u t = true) : 0 < (leadersOf st t).length := by
  obtain ⟨row, _, hmem, _, ht, hr⟩ := isTeamLeader_row st u t h
  have : row ∈ leadersOf st t :=
    List.mem_filter.mpr ⟨hmem, by simp [ht, hr]⟩
  exact List.length_pos_of_mem this

/-- The concrete one-leader team used by the C4 counterexample/witness. -/
def stC4 : DbState :=
  ⟨[TeamRow.mk "t1" "Alpha" ""], [TeamMemberRow.mk "t1" "u1" "leader" "safe"], [], []⟩

/-- C4 (counterexample): on a team whose only leader is u1, the self
removal is refused, but with HTTP status 400 (the ValidationError band),
not 409 / ConflictError as the claim states; the membership row is left
unchanged. -/
theorem c4_counterexample :
    (leadersOf stC4 "t1").length = 1 ∧
    isTeamLeader stC4 "u1" "t1" = true ∧
    (removeTeamMember stC4 "u1" "t1" "u1").1 = 400 ∧
    (removeTeamMember stC4 "u1" "t1" "u1").1 ≠ 409 ∧
    (removeTeamMember stC4 "u1" "t1" "u1").2 = stC4 := by decide

/-- C4 (amended): on a team with exactly one leader, removeTeamMember
invoked by that leader on themself fails with HTTP 400 (not 409) and the
state is unchanged; after a second leader is promoted through
addTeamMember with role leader, the same call succeeds with 200 and the
membership row is gone. -/
theorem c4_amended_last_leader (st : DbState) (teamId u u2 teamName : String)
    (hl : isTeamLeader st u teamId = true)
    (hone : (leadersOf st teamId).length ≤ 1)
    (hnm : isTeamMember st u2 teamId = false) :
    removeTeamMember st u teamId u = (400, st) ∧
    (addTeamMember st u teamId u2 "leader" teamName).1 = 201 ∧
    (removeTeamMember (addTeamMember st u teamId u2 "leader" teamName).2 u teamId u).1
      = 200 ∧
    isTeamMember
      (removeTeamMember (addTeamMember st u teamId u2 "leader" teamName).2 u teamId u).2
      u teamId = false := by
  obtain ⟨row, hf, hmem, hru, hrt, hrole⟩ := isTeamLeader_row st u teamId hl
  have hfirst : removeTeamMember st u teamId u = (400, st) := by
    simp [removeTeamMember, hl, hone]
  have hst2 : (addTeamMember st u teamId u2 "leader" teamName).2
      = { st with
          team_members := st.team_members
            ++ [TeamMemberRow.mk teamId u2 "leader" "offline"],
          notifications := st.notifications
            ++ [NotificationRow.mk u2 "alert" "Team Invitation"
                ("You have been added to team \"" ++ teamName ++ "\"")] } := by
    simp [addTeamMember, hl, hnm]
  have hadd : (addTeamMember st u teamId u2 "leader" teamName).1 = 201 := by
    simp [addTeamMember, hl, hnm]
  have hl2 : isTeamLeader (addTeamMember st u teamId u2 "leader" teamName).2 u teamId
      = true := by
    rw [hst2]
    unfold isTeamLeader singleMembership
    rw [show ({ st with
          team_members := st.team_members
            ++ [TeamMemberRow.mk teamId u2 "leader" "offline"],
          notifications := st.notifications
            ++ [NotificationRow.mk u2 "alert" "Team Invitation"
                ("You have been added to team \"" ++ teamName ++ "\"")] }
        : DbState).team_members
      = st.team_members ++ [TeamMemberRow.mk teamId u2 "leader" "offline"] from rfl]
    rw [List.find?_append, hf]
    show (row.role == "leader") = true
    simp [hrole]
  have hlead2 : leadersOf (addTeamMember st u teamId u2 "leader" teamName).2 teamId
      = leadersOf st teamId ++ [TeamMemberRow.mk teamId u2 "leader" "offline"] := by
    rw [hst2]
    unfold leadersOf
    rw [show ({ st with
          team_members := st.team_members
            ++ [TeamMemberRow.mk teamId u2 "leader" "offline"],
          notifications := st.notifications
            ++ [NotificationRow.mk u2 "alert" "Team Invitation"
                ("You have been added to team \"" ++ teamName ++ "\"")] }
        : DbState).team_members
      = st.team_members ++ [TeamMemberRow.mk teamId u2 "leader" "offline"] from rfl]
    rw [List.filter_append]
    simp
  have hlen2 : ¬ ((leadersOf (addTeamMember st u teamId u2 "leader" teamName).2
      teamId).length ≤ 1) := by
    rw [hlead2, List.length_append]
    have hpos := isTeamLeader_leaders_pos st u teamId hl
    have h1 : [TeamMemberRow.mk teamId u2 "leader" "offline"].length = 1 := rfl
    rw [h1]
    omega
  have hrm2 : removeTeamMember (addTeamMember st u teamId u2 "leader" teamName).2
      u teamId u
      = (200, { (addTeamMember st u teamId u2 "leader" teamName).2 with
          team_members := (addTeamMember st u teamId u2 "leader" teamName).2.team_members.filter
            (fun m => !(m.team_id == teamId && m.user_id == u)) }) := by
    simp [removeTeamMember, hl2, hlen2]
  refine ⟨hfirst, hadd, by rw [hrm2], ?_⟩
  rw [hrm2]
  unfold isTeamMember singleMembership
  have hnone : (((addTeamMember st u teamId u2 "leader" teamName).2.team_members.filter
      (fun m => !(m.team_id == teamId && m.user_id == u))).find?
        (fun m => m.user_id == u && m.team_id == teamId)) = none := by
    rw [List.find?_eq_none]
    intro x hx hp
    have hx2 := (List.mem_filter.mp hx).2
    simp only [Bool.and_eq_true, beq_iff_eq] at hp
    simp [hp.1, hp.2] at hx2
  rw [hnone]

/-- Witness for C4 (amended) on the concrete one-leader team stC4. -/
theorem c4_amended_last_leader_witness :
    removeTeamMember stC4 "u1" "t1" "u1" = (400, stC4) ∧
    (addTeamMember stC4 "u1" "t1" "u2" "leader" "Alpha").1 = 201 ∧
    (removeTeamMember (addTeamMember stC4 "u1" "t1" "u2" "leader" "Alpha").2
      "u1" "t1" "u1").1 = 200 ∧
    isTeamMember
      (removeTeamMember (addTeamMember stC4 "u1" "t1" "u2" "leader" "Alpha").2
        "u1" "t1" "u1").2 "u1" "t1" = false :=
  c4_amended_last_leader stC4 "t1" "u1" "u2" "Alpha" (by decide) (by decide) (by decide)

/-- isTeamMember is the existence of a membership row. -/
theorem isTeamMember_iff (st : DbState) (u t : String) :
    isTeamMember st u t = true
      ↔ ∃ m ∈ st.team_members, m.user_id = u ∧ m.team_id = t := by
  unfold isTeamMember singleMembership
  cases hf : st.team_members.find? (fun m => m.user_id == u && m.team_id == t) with
  | none =>
    constructor
    · intro h
      simp at h
    · intro hex
      obtain ⟨m, hm, h1, h2⟩ := hex
      have hs : (st.team_members.find?
          (fun m => m.user_id == u && m.team_id == t)).isSome :=
        List.find?_isSome.mpr ⟨m, hm, by simp [h1, h2]⟩
      rw [hf] at hs
      simp at hs
  | some row =>
    have hp := List.find?_some hf
    have hmem := List.mem_of_find?_eq_some hf
    simp only [Bool.and_eq_true, beq_iff_eq] at hp
    constructor
    · intro _
      exact ⟨row, hmem, hp.1, hp.2⟩
    · intro _
      rfl

/-- C8: a join_team request by a non-member (including the no-row case,
which isTeamMember converts to false rather than an error) does not join
the session to the team room; only an in-band error event to that session
is emitted and the connection is not closed.  Conversely a room is only
ever joined — through join_team or the connect-time auto-join — when the
user is a member at join time. -/
theorem c8_join_team_guard (st : DbState) (socketId userId teamId : String) :
    (st.team_members.find? (fun m => m.user_id == userId && m.team_id == teamId)
        = none →
      singleMembership st userId teamId = Except.error "PGRST116: no rows returned" ∧
      isTeamMember st userId teamId = false) ∧
    (isTeamMember st userId teamId = false →
      joinTeam st socketId userId teamId
        = [Action.emitError socketId "Not a team member"] ∧
      (∀ room, Action.joinRoom room ∉ joinTeam st socketId userId teamId) ∧
      (∀ sid, Action.closeConnection sid ∉ joinTeam st socketId userId teamId)) ∧
    (∀ room, Action.joinRoom room ∈ joinTeam st socketId userId teamId →
      isTeamMember st userId teamId = true) ∧
    (∀ room, Action.joinRoom room ∈ joinUserTeams st userId →
      ∃ tid, room = "team:" ++ tid ∧ isTeamMember st userId tid = true) := by
  refine ⟨?_, ?_, ?_, ?_⟩
  · intro h
    constructor
    · unfold singleMembership
      rw [h]
    · unfold isTeamMember singleMembership
      rw [h]
  · intro h
    have ht : joinTeam st socketId userId teamId
        = [Action.emitError socketId "Not a team member"] := by
      simp [joinTeam, h]
    refine ⟨ht, ?_, ?_⟩ <;> intro x hx <;> rw [ht] at hx <;> simp at hx
  · intro room hr
    by_cases h : isTeamMember st userId teamId = true
    · exact h
    · have h2 : isTeamMember st userId teamId = false := by
        revert h
        cases isTeamMember st userId teamId <;> simp
      simp [joinTeam, h2] at hr
  · intro room hr
    unfold joinUserTeams at hr
    simp only [List.mem_map] at hr
    obtain ⟨tid, htid, heq⟩ := hr
    have hroom : room = "team:" ++ tid := by
      cases heq
      rfl
    unfold getUserTeams at htid
    simp only [List.mem_map] at htid
    obtain ⟨m, hm, hmt⟩ := htid
    have hmem := List.mem_filter.mp hm
    refine ⟨tid, hroom, (isTeamMember_iff st userId tid).mpr ⟨m, hmem.1, ?_, hmt⟩⟩
    simpa using hmem.2

/-- Witness for C8: user u9 has no membership row in stC4, the check
yields false (not an error), and join_team only emits the error event. -/
theorem c8_join_team_guard_witness :
    (singleMembership stC4 "u9" "t1" = Except.error "PGRST116: no rows returned" ∧
      isTeamMember stC4 "u9" "t1" = false) ∧
    (joinTeam stC4 "s1" "u9" "t1" = [Action.emitError "s1" "Not a team member"] ∧
      (∀ room, Action.joinRoom room ∉ joinTeam stC4 "s1" "u9" "t1") ∧
      (∀ sid, Action.closeConnection sid ∉ joinTeam stC4 "s1" "u9" "t1")) :=
  ⟨(c8_join_team_guard stC4 "s1" "u9" "t1").1 (by decide),
   (c8_join_team_guard stC4 "s1" "u9" "t1").2.1 (by decide)⟩

/-- C6: in the realtime status_update handler a failed membership check or
a failed persistence write emits an error event to the originating session
only and produces no user:status_update broadcast and no state change; a
broadcast occurs only when the persistence write succeeded, and then the
successful persist precedes the broadcast in the effect order
(persist-then-broadcast, never broadcast-before-persist). -/
theorem c6_status_update_persist_then_broadcast (st : DbState)
    (conn : List (String × String)) (socketId userId userName teamId status : String)
    (persistOk : Bool) :
    (isTeamMember st userId teamId = false →
      statusUpdateHandler st conn socketId userId userName teamId status persistOk
        = (st, [Action.emitError socketId "Not a team member"])) ∧
    (isTeamMember st userId teamId = true → persistOk = false →
      statusUpdateHandler st conn socketId userId userName teamId status persistOk
        = (st, [Action.persistStatus userId teamId status false,
                Action.emitError socketId "Failed to update status"])) ∧
    (isTeamMember st userId teamId = true → persistOk = true →
      ∃ rest,
        (statusUpdateHandler st conn socketId userId userName teamId status persistOk).2
          = Action.persistStatus userId teamId status true ::
            Action.statusBroadcast ("team:" ++ teamId) userId status teamId :: rest) ∧
    (∀ room u s t, Action.statusBroadcast room u s t
        ∈ (statusUpdateHandler st conn socketId userId userName teamId status persistOk).2 →
      persistOk = true ∧ isTeamMember st userId teamId = true) := by
  refine ⟨?_, ?_, ?_, ?_⟩
  · intro h
    simp [statusUpdateHandler, h]
  · intro h hp
    simp [statusUpdateHandler, h, hp]
  · intro h hp
    refine ⟨?_, ?_⟩
    · exact ((getTeamMembers (setMemberStatus st userId teamId status) teamId).filter
        (fun m => m.user_id != userId)).map (fun m =>
          Action.notifInsert (statusChangeNotifRow userName status m.user_id) ::
          (match lookupSocket conn m.user_id with
           | some sid => [Action.notifUnicast sid (statusChangeNotifRow userName status m.user_id)]
           | none => [])) |>.flatten
    · simp [statusUpdateHandler, h, hp]
  · intro room u s t hmem
    by_cases h : isTeamMember st userId teamId = true
    · by_cases hp : persistOk = true
      · exact ⟨hp, h⟩
      · have hp2 : persistOk = false := by
          revert hp
          cases persistOk <;> simp
        simp [statusUpdateHandler, h, hp2] at hmem
    · have h2 : isTeamMember st userId teamId = false := by
        revert h
        cases isTeamMember st userId teamId <;> simp
      simp [statusUpdateHandler, h2] at hmem

/-- Witness for C6: a concrete failed persistence write on stC4 leaves the
state unchanged and emits only the error event to socket s1. -/
theorem c6_status_update_witness :
    statusUpdateHandler stC4 [] "s1" "u1" "U" "t1" "need_backup" false
      = (stC4, [Action.persistStatus "u1" "t1" "need_backup" false,
                Action.emitError "s1" "Failed to update status"]) :=
  (c6_status_update_persist_then_broadcast stC4 [] "s1" "u1" "U" "t1" "need_backup"
    false).2.1 (by decide) rfl

/-- The effect trace of the offline loop: one persist attempt followed by
one room broadcast per team, independent of per-team outcomes. -/
theorem updateUserOfflineStatus_actions (u : String) (pOk : String → Bool) :
    ∀ (L : List String) (st : DbState),
      (updateUserOfflineStatus u pOk st L).2
        = (L.map (fun tid =>
            [Action.persistStatus u tid "offline" (pOk tid),
             Action.statusBroadcast ("team:" ++ tid) u "offline" tid])).flatten
  | [], _ => rfl
  | tid :: rest, st => by
    show Action.persistStatus u tid "offline" (pOk tid) ::
        Action.statusBroadcast ("team:" ++ tid) u "offline" tid ::
        (updateUserOfflineStatus u pOk
          (if pOk tid then setMemberStatus st u tid "offline" else st) rest).2
      = _
    rw [updateUserOfflineStatus_actions u pOk rest]
    rfl

/-- Rows of the state after the offline loop descend from initial rows,
either unchanged or with the status overwritten to offline. -/
theorem updateUserOfflineStatus_origin (u : String) (pOk : String → Bool) :
    ∀ (L : List String) (st : DbState) (m : TeamMemberRow),
      m ∈ (updateUserOfflineStatus u pOk st L).1.team_members →
      ∃ m0 ∈ st.team_members, m = m0 ∨ m = { m0 with status := "offline" }
  | [], _, m => fun h => ⟨m, h, Or.inl rfl⟩
  | tid :: rest, st, m => by
    intro h
    have h2 : m ∈ (updateUserOfflineStatus u pOk
        (if pOk tid then setMemberStatus st u tid "offline" else st) rest).1.team_members := h
    obtain ⟨m0, hm0, hcase⟩ := updateUserOfflineStatus_origin u pOk rest _ m h2
    by_cases hp : pOk tid
    · rw [if_pos hp] at hm0
      unfold setMemberStatus at hm0
      simp only [List.mem_map] at hm0
      obtain ⟨m1, hm1, hfm⟩ := hm0
      by_cases hc : (m1.user_id == u && m1.team_id == tid) = true
      · rw [if_pos hc] at hfm
        refine ⟨m1, hm1, Or.inr ?_⟩
        rcases hcase with rfl | rfl
        · rw [← hfm]
        · rw [← hfm]
      · rw [if_neg hc] at hfm
        refine ⟨m1, hm1, ?_⟩
        rw [hfm]
        exact hcase
    · rw [if_neg hp] at hm0
      exact ⟨m0, hm0, hcase⟩

/-- When every per-team persist succeeds, the offline loop leaves every
row of the user whose team was in the processed list with status offline. -/
theorem updateUserOfflineStatus_offline (u : String) (pOk : String → Bool) :
    ∀ (L : List String) (st : DbState) (m : TeamMemberRow),
      (∀ t ∈ L, pOk t = true) →
      m ∈ (updateUserOfflineStatus u pOk st L).1.team_members →
      m.user_id = u → m.team_id ∈ L → m.status = "offline"
  | [], _, m => by
    intro _ _ _ h
    simp at h
  | tid :: rest, st, m => by
    intro hok hmem hu ht
    by_cases hrest : m.team_id ∈ rest
    · exact updateUserOfflineStatus_offline u pOk rest _ m
        (fun t h => hok t (List.mem_cons_of_mem _ h)) hmem hu hrest
    · have htid : m.team_id = tid := by
        rcases List.mem_cons.mp ht with h | h
        · exact h
        · exact absurd h hrest
      have hp : pOk tid = true := hok tid (List.mem_cons_self _ _)
      have h2 : m ∈ (updateUserOfflineStatus u pOk
          (if pOk tid then setMemberStatus st u tid "offline" else st)
          rest).1.team_members := hmem
      obtain ⟨m0, hm0, hcase⟩ := updateUserOfflineStatus_origin u pOk rest _ m h2
      rw [if_pos (by rw [hp]) ] at hm0
      unfold setMemberStatus at hm0
      simp only [List.mem_map] at hm0
      obtain ⟨m1, hm1, hfm⟩ := hm0
      rcases hcase with rfl | rfl
      · by_cases hc : (m1.user_id == u && m1.team_id == tid) = true
        · rw [if_pos hc] at hfm
          rw [← hfm]
        · rw [if_neg hc] at hfm
          exfalso
          apply hc
          rw [← hfm] at hu htid
          simp [hu, htid]
      · rfl

/-- C7: disconnect removes the user from the ConnectionRegistry; the
effect trace contains, for every team of the user, one offline persist
attempt followed by one user:status_update broadcast to that team room
(regardless of other teams failing — the loop never stops early); and
when every persist succeeds, every membership row of the user ends with
status offline. -/
theorem c7_disconnect_offline (st : DbState) (conn : List (String × String))
    (userId : String) (pOk : String → Bool) :
    lookupSocket (disconnectHandler st conn userId pOk).1 userId = none ∧
    (disconnectHandler st conn userId pOk).2.2
      = ((getUserTeams st userId).map (fun tid =>
          [Action.persistStatus userId tid "offline" (pOk tid),
           Action.statusBroadcast ("team:" ++ tid) userId "offline" tid])).flatten ∧
    (∀ t ∈ getUserTeams st userId,
      Action.persistStatus userId t "offline" (pOk t)
          ∈ (disconnectHandler st conn userId pOk).2.2 ∧
        Action.statusBroadcast ("team:" ++ t) userId "offline" t
          ∈ (disconnectHandler st conn userId pOk).2.2) ∧
    ((∀ t ∈ getUserTeams st userId, pOk t = true) →
      ∀ m ∈ (disconnectHandler st conn userId pOk).2.1.team_members,
        m.user_id = userId → m.status = "offline") := by
  have hact : (disconnectHandler st conn userId pOk).2.2
      = ((getUserTeams st userId).map (fun tid =>
          [Action.persistStatus userId tid "offline" (pOk tid),
           Action.statusBroadcast ("team:" ++ tid) userId "offline" tid])).flatten :=
    updateUserOfflineStatus_actions userId pOk (getUserTeams st userId) st
  refine ⟨?_, hact, ?_, ?_⟩
  · unfold lookupSocket
    have hnone : ((conn.filter (fun p => p.1 != userId)).find?
        (fun p => p.1 == userId)) = none := by
      rw [List.find?_eq_none]
      intro x hx hp
      have hx2 := (List.mem_filter.mp hx).2
      simp only [beq_iff_eq] at hp
      simp [hp] at hx2
    rw [show (disconnectHandler st conn userId pOk).1
      = conn.filter (fun p => p.1 != userId) from rfl, hnone]
    rfl
  · intro t htmem
    constructor
    · rw [hact]
      refine List.mem_flatten.mpr ⟨_, List.mem_map.mpr ⟨t, htmem, rfl⟩, ?_⟩
      simp
    · rw [hact]
      refine List.mem_flatten.mpr ⟨_, List.mem_map.mpr ⟨t, htmem, rfl⟩, ?_⟩
      simp
  · intro hok m hmem hu
    obtain ⟨m0, hm0, hcase⟩ :=
      updateUserOfflineStatus_origin userId pOk (getUserTeams st userId) st m hmem
    have hu0 : m0.user_id = userId := by
      rcases hcase with rfl | rfl
      · exact hu
      · exact hu
    have hteam : m.team_id ∈ getUserTeams st userId := by
      have hid : m.team_id = m0.team_id := by
        rcases hcase with rfl | rfl <;> rfl
      rw [hid]
      unfold getUserTeams
      exact List.mem_map.mpr ⟨m0, List.mem_filter.mpr ⟨hm0, by simp [hu0]⟩, rfl⟩
    exact updateUserOfflineStatus_offline userId pOk _ st m hok hmem hu hteam

/-- The two-team user state of the C7 witness (disconnect cascade). -/
def stC7 : DbState :=
  ⟨[TeamRow.mk "t1" "A" "", TeamRow.mk "t2" "B" ""],
   [TeamMemberRow.mk "t1" "u1" "member" "safe",
    TeamMemberRow.mk "t2" "u1" "member" "safe"], [], []⟩

/-- Witness for C7: after u1 disconnects, the registry entry is gone and
team t1 got its persist attempt and its offline broadcast. -/
theorem c7_disconnect_offline_witness :
    lookupSocket (disconnectHandler stC7 [("u1", "s1")] "u1" (fun _ => true)).1 "u1"
      = none ∧
    (Action.persistStatus "u1" "t1" "offline" true
        ∈ (disconnectHandler stC7 [("u1", "s1")] "u1" (fun _ => true)).2.2 ∧
      Action.statusBroadcast ("team:" ++ "t1") "u1" "offline" "t1"
        ∈ (disconnectHandler stC7 [("u1", "s1")] "u1" (fun _ => true)).2.2) :=
  ⟨(c7_disconnect_offline stC7 [("u1", "s1")] "u1" (fun _ => true)).1,
   (c7_disconnect_offline stC7 [("u1", "s1")] "u1" (fun _ => true)).2.2.1 "t1"
     (by decide)⟩

/-- C9: an encrypted send by a team member persists a message row with
is_encrypted set and the serialized envelope — not the plaintext — as its
content, and appends exactly one notification of type message per team
member other than the sender. -/
theorem c9_encrypted_message_persistence (st : DbState)
    (senderId senderEmail senderName team_id : String) (mission_id : Option String)
    (content : String) (dk kr ivr : List Nat) (msgId : String)
    (hmem : isTeamMember st senderId team_id = true)
    (hkr : ∀ b ∈ kr, b < 256) (hkn : kr ≠ []) :
    (sendMessage st senderId senderEmail senderName team_id mission_id content true
        dk kr ivr msgId true).status = 201 ∧
    (sendMessage st senderId senderEmail senderName team_id mission_id content true
        dk kr ivr msgId true).db.messages
      = st.messages ++ [MessageRow.mk msgId team_id mission_id senderId
          (jsonOfEnvelope (encryptE2E dk content kr ivr)) true] ∧
    jsonOfEnvelope (encryptE2E dk content kr ivr) ≠ content ∧
    (sendMessage st senderId senderEmail senderName team_id mission_id content true
        dk kr ivr msgId true).db.notifications
      = st.notifications ++ ((getTeamMembers st team_id).filter
          (fun m => m.user_id != senderId)).map
          (fun m => messageNotifRow senderName m.user_id) ∧
    (∀ n ∈ ((getTeamMembers st team_id).filter (fun m => m.user_id != senderId)).map
        (fun m => messageNotifRow senderName m.user_id),
      n.type = "message" ∧ n.user_id ≠ senderId) := by
  refine ⟨?_, ?_, jsonOfEnvelope_encryptE2E_ne dk content kr ivr hkr hkn, ?_, ?_⟩
  · simp [sendMessage, hmem]
  · simp [sendMessage, hmem]
  · simp [sendMessage, hmem]
    rfl
  · intro n hn
    simp only [List.mem_map] at hn
    obtain ⟨m, hm, rfl⟩ := hn
    refine ⟨rfl, ?_⟩
    have hne := (List.mem_filter.mp hm).2
    simpa using hne

/-- The team-with-two-members state used by the C9 witness and the C1
counterexample (scenario of spec §8.6). -/
def stMsg : DbState :=
  ⟨[TeamRow.mk "t1" "Alpha" ""],
   [TeamMemberRow.mk "t1" "u1" "leader" "safe",
    TeamMemberRow.mk "t1" "u2" "member" "safe"], [], []⟩

/-- Witness for C9 on stMsg with plaintext "status?". -/
theorem c9_encrypted_message_persistence_witness :
    (sendMessage stMsg "u1" "a@x" "A" "t1" none "status?" true
        defaultKeyEx keyDraw1 ivDraw "m1" true).status = 201 ∧
    (sendMessage stMsg "u1" "a@x" "A" "t1" none "status?" true
        defaultKeyEx keyDraw1 ivDraw "m1" true).db.messages
      = stMsg.messages ++ [MessageRow.mk "m1" "t1" none "u1"
          (jsonOfEnvelope (encryptE2E defaultKeyEx "status?" keyDraw1 ivDraw)) true] ∧
    jsonOfEnvelope (encryptE2E defaultKeyEx "status?" keyDraw1 ivDraw) ≠ "status?" ∧
    (sendMessage stMsg "u1" "a@x" "A" "t1" none "status?" true
        defaultKeyEx keyDraw1 ivDraw "m1" true).db.notifications
      = stMsg.notifications ++ ((getTeamMembers stMsg "t1").filter
          (fun m => m.user_id != "u1")).map (fun m => messageNotifRow "A" m.user_id) ∧
    (∀ n ∈ ((getTeamMembers stMsg "t1").filter (fun m => m.user_id != "u1")).map
        (fun m => messageNotifRow "A" m.user_id),
      n.type = "message" ∧ n.user_id ≠ "u1") :=
  c9_encrypted_message_persistence stMsg "u1" "a@x" "A" "t1" none "status?"
    defaultKeyEx keyDraw1 ivDraw "m1" (by decide) (by decide) (by decide)

/-- The broadcast payload of the C1 counterexample run. -/
def c1payload : MessagePayload :=
  MessagePayload.mk "m1" "t1" none "u1"
    (jsonOfEnvelope (encryptE2E defaultKeyEx "status?" keyDraw1 ivDraw)) true "a@x"

set_option maxRecDepth 16000 in
/-- C1 (counterexample): in a concrete encrypted send by team member u1,
the generated per-message key is indeed in the sender's response — but the
message:new broadcast to the team room carries it too: the broadcast
payload content is the serialized envelope, and the key appears verbatim
inside it. -/
theorem c1_counterexample :
    (∃ d, (sendMessage stMsg "u1" "a@x" "A" "t1" none "status?" true defaultKeyEx
        keyDraw1 ivDraw "m1" true).responseData = some d ∧
      d.encryptionKey = some (generateKey keyDraw1)) ∧
    Action.messageBroadcast ("team:" ++ "t1") c1payload
      ∈ (sendMessage stMsg "u1" "a@x" "A" "t1" none "status?" true defaultKeyEx
          keyDraw1 ivDraw "m1" true).actions ∧
    (∃ a b : List Char,
      c1payload.content.data = a ++ (generateKey keyDraw1).data ++ b) := by
  refine ⟨⟨_, rfl, rfl⟩, ?_, ?_⟩
  · exact List.mem_append_right _ (List.mem_singleton.mpr rfl)
  · obtain ⟨a, b, hab⟩ :=
      jsonOfEnvelope_carries_key (encryptE2E defaultKeyEx "status?" keyDraw1 ivDraw)
    refine ⟨a, b, ?_⟩
    show (jsonOfEnvelope (encryptE2E defaultKeyEx "status?" keyDraw1 ivDraw)).data = _
    rw [hab, encryptE2E_key defaultKeyEx "status?" keyDraw1 ivDraw (by decide)]
    rfl

/-- C1 (amended): for every successful encrypted send by a team member,
the generated key is returned as the dedicated encryptionKey field of the
sender's own response, and while the broadcast carries no such dedicated
field, every message:new broadcast payload of the request embeds the
serialized envelope as its content and that envelope contains the
generated key verbatim — the broadcast therefore does contain the key. -/
theorem c1_amended_key_channels (st : DbState)
    (senderId senderEmail senderName team_id : String) (mission_id : Option String)
    (content : String) (dk kr ivr : List Nat) (msgId : String)
    (hmem : isTeamMember st senderId team_id = true) (hkn : kr ≠ []) :
    (∃ d, (sendMessage st senderId senderEmail senderName team_id mission_id content
        true dk kr ivr msgId true).responseData = some d ∧
      d.encryptionKey = some (generateKey kr)) ∧
    (∀ room p, Action.messageBroadcast room p
        ∈ (sendMessage st senderId senderEmail senderName team_id mission_id content
            true dk kr ivr msgId true).actions →
      ∃ a b : List Char, p.content.data = a ++ (generateKey kr).data ++ b) := by
  have hrd : (sendMessage st senderId senderEmail senderName team_id mission_id content
      true dk kr ivr msgId true).responseData
    = some ⟨MessagePayload.mk msgId team_id mission_id senderId
        (jsonOfEnvelope (encryptE2E dk content kr ivr)) true senderEmail,
        some (generateKey kr)⟩ := by
    simp [sendMessage, hmem, hexEncode_ne_empty kr hkn, encryptE2E_key dk content kr ivr hkn]
    rfl
  have hacts : (sendMessage st senderId senderEmail senderName team_id mission_id
      content true dk kr ivr msgId true).actions
    = (((getTeamMembers st team_id).filter (fun m => m.user_id != senderId)).map
        (fun m => messageNotifRow senderName m.user_id)).map Action.notifInsert
      ++ [Action.messageBroadcast ("team:" ++ team_id)
          (MessagePayload.mk msgId team_id mission_id senderId
            (jsonOfEnvelope (encryptE2E dk content kr ivr)) true senderEmail)] := by
    simp [sendMessage, hmem]
    rfl
  refine ⟨⟨_, hrd, rfl⟩, ?_⟩
  intro room p hp
  rw [hacts] at hp
  rcases List.mem_append.mp hp with h | h
  · simp only [List.mem_map] at h
    obtain ⟨n, _, heq⟩ := h
    exact absurd heq (by simp)
  · have heq := List.mem_singleton.mp h
    have hpc : p.content = jsonOfEnvelope (encryptE2E dk content kr ivr) := by
      cases heq
      rfl
    obtain ⟨a, b, hab⟩ := jsonOfEnvelope_carries_key (encryptE2E dk content kr ivr)
    refine ⟨a, b, ?_⟩
    rw [hpc, hab, encryptE2E_key dk content kr ivr hkn]
    rfl

/-- Witness for C1 (amended) on the concrete stMsg run. -/
theorem c1_amended_key_channels_witness :
    (∃ d, (sendMessage stMsg "u1" "a@x" "A" "t1" none "status?" true defaultKeyEx
        keyDraw1 ivDraw "m1" true).responseData = some d ∧
      d.encryptionKey = some (generateKey keyDraw1)) ∧
    (∀ room p, Action.messageBroadcast room p
        ∈ (sendMessage stMsg "u1" "a@x" "A" "t1" none "status?" true defaultKeyEx
            keyDraw1 ivDraw "m1" true).actions →
      ∃ a b : List Char, p.content.data = a ++ (generateKey keyDraw1).data ++ b) :=
  c1_amended_key_channels stMsg "u1" "a@x" "A" "t1" none "status?" defaultKeyEx
    keyDraw1 ivDraw "m1" (by decide) (by decide)

end DMT
